import Mathlib

/-!
Shallow embedding of the gget repository's `gget_alphafold.py` and
`gget_setup.py` orchestration logic, together with theorems checking the
natural-language specification against it.

Each definition is translated directly from the Python source; external
library calls (the AlphaFold package, jackhmmer, matplotlib, ...) are
treated as opaque services and appear as parameters of the embedded
functions.
-/

namespace Gget

/-- The `PLDDT_BANDS` constant of `gget_alphafold.py`: a list of
`(min_val, max_val, color)` triples used for the coarse per-residue
confidence classification. -/
def PLDDT_BANDS : List (ℚ × ℚ × String) :=
  [(0, 50, "#FF7D45"), (50, 70, "#FFDB13"), (70, 90, "#65CBF3"), (90, 100, "#0053D6")]

/-- The inner banding loop of `alphafold` (lines 820-825): iterate over the
bands in order with their index; on the first band with
`plddt >= min_val and plddt <= max_val` append the index and break.
Returns `none` when no band matches (nothing is appended). -/
def bandIndexAux (bands : List (ℚ × ℚ × String)) (idx : Nat) (plddt : ℚ) : Option Nat :=
  match bands with
  | [] => none
  | (lo, hi, _) :: rest =>
      if lo ≤ plddt ∧ plddt ≤ hi then some idx else bandIndexAux rest (idx + 1) plddt

/-- Band index assigned to a per-residue confidence score by the plotting
code of `alphafold`. -/
def bandIndex (plddt : ℚ) : Option Nat := bandIndexAux PLDDT_BANDS 0 plddt

/-- Whether band number `i` of `PLDDT_BANDS` matches a score, using the
source's inclusive comparisons on both ends. -/
def inBand (i : Nat) (plddt : ℚ) : Prop :=
  ∃ b ∈ PLDDT_BANDS.get? i, b.1 ≤ plddt ∧ plddt ≤ b.2.1

/-- The `supported_modules` list of `gget_setup.py`. -/
def supported_modules : List String := ["alphafold", "cellxgene", "gpt"]

/-- The validation prologue of `setup` in `gget_setup.py` (lines 45-49):
if the module is not supported, a `ValueError` carrying the formatted
message is raised (`some msg`); otherwise no such error is raised
(`none`) and installation proceeds. -/
def setupModuleError (module : String) : Option String :=
  if module ∉ supported_modules then
    some ("\x27module\x27 argument specified as " ++ module ++ ". Expected one of: "
      ++ String.intercalate ", " supported_modules)
  else none

/-- Strict-FASTA branch of `alphafold` (lines 506-528): lines are consumed
with their index `i`; an even-indexed line must begin with the marker
character or a `ValueError` with the start-marker message is raised; an
odd-indexed line beginning with the marker raises the missing-sequence-line
`ValueError`; otherwise titles and sequences are collected (stripped).
`Except.error` carries the exact message of the raised error. -/
def parseFastaStrict (lines : List String) (i : Nat) (titles seqs : List String) :
    Except String (List String × List String) :=
  match lines with
  | [] => Except.ok (titles, seqs)
  | line :: rest =>
      if i % 2 = 0 then
        if line.take 1 ≠ ">" then
          Except.error "Expected FASTA to start with a \x27>\x27 character. "
        else
          parseFastaStrict rest (i + 1) (titles ++ [line.trim]) seqs
      else
        if line.take 1 = ">" then
          Except.error "FASTA contains two lines starting with \x27>\x27 in a row -> missing sequence line. "
        else
          parseFastaStrict rest (i + 1) titles (seqs ++ [line.trim])

/-- Entry point of the strict-FASTA branch: parse from line index 0 with
empty accumulators. -/
def parseFasta (lines : List String) : Except String (List String × List String) :=
  parseFastaStrict lines 0 [] []

/-- A single line violates the strict alternation at line index `i`: an
even-indexed line not starting with the marker, or an odd-indexed line
starting with it. -/
def lineViol (line : String) (i : Nat) : Prop :=
  if i % 2 = 0 then line.take 1 ≠ ">" else line.take 1 = ">"

/-- The FASTA input violates the strict alternation at index `i`. -/
def fastaViolation (lines : List String) (i : Nat) : Prop :=
  lineViol (lines.getD i "") i

/-- The message raised for a violation at index `i`. -/
def fastaErrorMsg (i : Nat) : String :=
  if i % 2 = 0 then "Expected FASTA to start with a \x27>\x27 character. "
  else "FASTA contains two lines starting with \x27>\x27 in a row -> missing sequence line. "

instance (line : String) (i : Nat) : Decidable (lineViol line i) := by
  unfold lineViol
  infer_instance

instance (lines : List String) (i : Nat) : Decidable (fastaViolation lines i) := by
  unfold fastaViolation
  infer_instance

/-- State of the MSA retrieval loop of `alphafold` (lines 594-664), with
an explicit heap of allocated hit collections so that aliasing and deep
copies are observable: `heap` holds every allocated collection, `cache`
is `raw_msa_results_for_sequence` (mapping a sequence to the heap address
of its cached collection), `searchLog` records each sequence for which
`get_msa` was actually invoked, in order, and `chainAddrs` holds, per
chain, the heap address of the collection bound to `raw_msa_results` in
that iteration. -/
structure RetrState (α : Type) where
  heap : List α
  cache : List (String × Nat)
  searchLog : List String
  chainAddrs : List Nat

/-- Lookup in the cache dictionary (`sequence in raw_msa_results_for_sequence`
plus the subsequent indexing); keys are unique because only missing keys
are inserted. -/
def findCache (cache : List (String × Nat)) (s : String) : Option Nat :=
  match cache with
  | [] => none
  | (k, v) :: rest => if k = s then some v else findCache rest s

/-- One iteration of the retrieval loop (lines 604-613): on a cache miss
`get_msa` is called (modelled by the opaque `search`), the fresh collection
is allocated and cached, and the chain is bound to that same allocation;
on a cache hit `copy.deepcopy` allocates a new heap cell holding a copy of
the cached collection's value, and the chain is bound to the new cell —
no search is issued. -/
def retrieveStep {α : Type} [Inhabited α] (search : String → α)
    (st : RetrState α) (seq : String) : RetrState α :=
  match findCache st.cache seq with
  | none =>
      { heap := st.heap ++ [search seq]
        cache := st.cache ++ [(seq, st.heap.length)]
        searchLog := st.searchLog ++ [seq]
        chainAddrs := st.chainAddrs ++ [st.heap.length] }
  | some a =>
      { heap := st.heap ++ [st.heap.getD a default]
        cache := st.cache
        searchLog := st.searchLog
        chainAddrs := st.chainAddrs ++ [st.heap.length] }

/-- The whole retrieval loop over the job's sequence list. -/
def runRetriever {α : Type} [Inhabited α] (search : String → α) (seqs : List String) :
    RetrState α :=
  seqs.foldl (retrieveStep search) ⟨[], [], [], []⟩

/-- Invariant of the retrieval loop relating the state to the list of
sequences processed so far. -/
def RetrInv {α : Type} [Inhabited α] (search : String → α)
    (st : RetrState α) (processed : List String) : Prop :=
  st.heap.length = processed.length ∧
  st.chainAddrs = List.range processed.length ∧
  (∀ s, st.searchLog.count s = if s ∈ processed then 1 else 0) ∧
  (∀ p ∈ st.cache, p.2 < st.heap.length ∧ st.heap.getD p.2 default = search p.1) ∧
  (∀ s, (findCache st.cache s).isSome ↔ s ∈ processed) ∧
  (∀ i, i < processed.length → st.heap.getD i default = search (processed.getD i ""))

/-- Job classification, as produced by the external
`notebook_utils.validate_input` (modelled from its contract: more than one
sequence selects the multimer pipeline). -/
inductive ModelType
  | MONOMER
  | MULTIMER
deriving DecidableEq

/-- The classification returned by `validate_input` at line 534. -/
def modelTypeToUse (seqs : List String) : ModelType :=
  if 1 < seqs.length then ModelType.MULTIMER else ModelType.MONOMER

/-- The guard at lines 575-578 and 652-655 of `gget_alphafold.py`:
`model_type_to_use == ModelType.MULTIMER and len(set(sequences)) > 1`
(the number of distinct sequences is the length of the deduplicated
list). -/
def heteroCondition (seqs : List String) : Prop :=
  modelTypeToUse seqs = ModelType.MULTIMER ∧ 1 < seqs.dedup.length

instance (seqs : List String) : Decidable (heteroCondition seqs) := by
  unfold heteroCondition
  infer_instance

/-- A database descriptor of the `MSA_DATABASES` list (lines 553-572). -/
structure DbConfig where
  db_name : String
  db_path : String
  num_streamed_chunks : Nat
  z_value : Nat
deriving DecidableEq

/-- The three always-searched databases (lines 553-572). -/
def baseMsaDatabases (root : String) : List DbConfig :=
  [⟨"uniref90", root ++ "uniref90_2021_03.fasta", 59, 135301051⟩,
   ⟨"smallbfd", root ++ "bfd-first_non_consensus_sequences.fasta", 17, 65984053⟩,
   ⟨"mgnify", root ++ "mgy_clusters_2019_05.fasta", 71, 304820129⟩]

/-- The full `MSA_DATABASES` list: the uniprot descriptor is appended
exactly under the heteromer guard (lines 574-589). -/
def msaDatabases (root : String) (seqs : List String) : List DbConfig :=
  baseMsaDatabases root ++
    (if heteroCondition seqs then
      [⟨"uniprot", root ++ "uniprot_2021_03.fasta", 98, 219174961 + 565254⟩]
     else [])

/-- The `all_seq_features` keys (lines 656-661): the keys of the uniprot
MSA features that lie in the `valid_feats` whitelist, each suffixed with
`_all_seq`. -/
def allSeqFeatureKeys (validFeats msaFeatureKeys : List String) : List String :=
  (msaFeatureKeys.filter (fun k => decide (k ∈ validFeats))).map (fun k => k ++ "_all_seq")

/-- The keys of one chain's feature bundle: the base keys contributed by
`make_sequence_features`, `make_msa_features` and the empty template
placeholders (opaque external calls, passed in as `baseKeys`), plus the
`all_seq` keys exactly under the heteromer guard (lines 651-662). -/
def chainFeatureKeys (baseKeys validFeats msaFeatureKeys : List String)
    (seqs : List String) : List String :=
  baseKeys ++
    (if heteroCondition seqs then allSeqFeatureKeys validFeats msaFeatureKeys else [])

/-- A heteromer job in the sense of the specification: a multimer whose
sequence list has at least two distinct sequences. -/
def isHeteromer (seqs : List String) : Prop :=
  1 < seqs.length ∧ 1 < seqs.dedup.length

/-- A key carrying the `_all_seq` suffix. -/
def isAllSeqKey (k : String) : Prop :=
  ∃ p, k = p ++ "_all_seq"

/-- The outputs of one inference run that the driver records (lines
724-744): whether the prediction exposes `predicted_aligned_error`, and
its scalar `ranking_confidence`. -/
structure Prediction where
  hasPae : Bool
  rankingConfidence : ℚ

/-- Accumulated bookkeeping of the inference loop: the
`ranking_confidences` mapping in insertion order, and the keys of
`pae_outputs`. -/
structure InferState where
  rankingConfidences : List (String × ℚ)
  paeModels : List String
deriving DecidableEq

/-- One iteration of the model loop (lines 706-744): for a monomer job, a
prediction exposing a pairwise error matrix goes only into `pae_outputs`
and records no ranking confidence, any other prediction records its
ranking confidence; for a multimer job every prediction records both. -/
def inferStep (mt : ModelType) (pred : String → Prediction)
    (st : InferState) (name : String) : InferState :=
  match mt with
  | ModelType.MONOMER =>
      if (pred name).hasPae then
        { st with paeModels := st.paeModels ++ [name] }
      else
        { st with rankingConfidences :=
            st.rankingConfidences ++ [(name, (pred name).rankingConfidence)] }
  | ModelType.MULTIMER =>
      { rankingConfidences := st.rankingConfidences ++ [(name, (pred name).rankingConfidence)]
        paeModels := st.paeModels ++ [name] }

/-- The inference loop over the configuration list. -/
def runInference (mt : ModelType) (pred : String → Prediction) (names : List String) :
    InferState :=
  names.foldl (inferStep mt pred) ⟨[], []⟩

/-- Python's `max(..., key=...)` scan: the running best is replaced only
when a later element is strictly greater, so the first maximal element in
iteration order wins. -/
def pyMaxGo (best : String × ℚ) : List (String × ℚ) → String × ℚ
  | [] => best
  | x :: rest => pyMaxGo (if best.2 < x.2 then x else best) rest

/-- `max(iterable, key=f)`: `none` models the `ValueError` Python raises
on an empty iterable. -/
def pyMaxKey : List (String × ℚ) → Option (String × ℚ)
  | [] => none
  | x :: rest => some (pyMaxGo x rest)

/-- Line 767: `best_model_name = max(ranking_confidences.keys(),
key=lambda x: ranking_confidences[x])`. -/
def bestModelName (st : InferState) : Option String :=
  (pyMaxKey st.rankingConfidences).map Prod.fst

/-- Which configuration names the monomer driver records a ranking
confidence for (multimer records all of them). -/
def keepName (mt : ModelType) (pred : String → Prediction) (n : String) : Bool :=
  match mt with
  | ModelType.MONOMER => !(pred n).hasPae
  | ModelType.MULTIMER => true

/-- The source-selection loop at lines 544-550: `futures.as_completed`
yields the futures in completion order; the loop takes the first
completed future and calls `f.result()`, which returns the probed suffix
if the probe succeeded and re-raises the probe's exception otherwise
(`Except.error ()`). The argument lists the probes in the order they
complete, each with its success flag. -/
def selectSource (completed : List (String × Bool)) : Except Unit String :=
  match completed with
  | [] => Except.error ()
  | (s, ok) :: _ => if ok then Except.ok s else Except.error ()

/-- Line 552: the database root path built from the selected suffix. -/
def dbRootPath (source : String) : String :=
  "https://storage.googleapis.com/alphafold-colab" ++ source ++ "/latest/"

/-- The successive stages of the `alphafold` function body, in source
order. -/
inductive PipelineStep
  | installPackages
  | downloadParams
  | copyStereoChem
  | validateInput
  | findClosestSource
  | msaSearch
  | runModels
deriving DecidableEq

/-- Stages that issue remote calls: the model-parameter download (curl,
lines 427-454), the mirror reachability probes (lines 544-550), and the
database searches (line 606 via `get_msa`). -/
def networkStep : PipelineStep → Bool
  | PipelineStep.downloadParams => true
  | PipelineStep.findClosestSource => true
  | PipelineStep.msaSearch => true
  | _ => false

/-- Modelled from the contract of the external
`notebook_utils.validate_input` with the bounds passed at lines 534-539:
every sequence length within [16, 2500], and for a multi-sequence job a
total length of at most 2500. -/
def validLengths (seqs : List String) : Prop :=
  (∀ s ∈ seqs, 16 ≤ s.length ∧ s.length ≤ 2500) ∧
  (1 < seqs.length → (seqs.map String.length).sum ≤ 2500)

instance (seqs : List String) : Decidable (validLengths seqs) := by
  unfold validLengths
  infer_instance

/-- The stage order of the `alphafold` body (lines 394-725):
`install_packages` first, then the parameter download when the parameter
directory is not populated (lines 427-454), then the local
stereochemistry copy, then input validation (line 534); the mirror
probes, the database searches and the model runs happen only after
validation passes. -/
def alphafoldTrace (paramsMissing : Bool) (seqs : List String) : List PipelineStep :=
  [PipelineStep.installPackages] ++
    (if paramsMissing then [PipelineStep.downloadParams] else []) ++
    [PipelineStep.copyStereoChem, PipelineStep.validateInput] ++
    (if validLengths seqs then
      [PipelineStep.findClosestSource, PipelineStep.msaSearch, PipelineStep.runModels]
     else [])

/-- Python runtime errors relevant to the embedded fragments. -/
inductive PyErr
  | nameError
deriving DecidableEq

/-- Local names of `alphafold` assigned (as assignment, loop, or
context-manager targets) before the save block at lines 803-815, in order
of first assignment. `pae` and `max_pae` are not among them: their only
assignment is at line 881, inside the plotting section, after the save
block. -/
def assignedBeforeSave : List String :=
  ["error", "ALPHAFOLD_PATH", "command", "stderr", "process2", "stderr2",
   "seqs", "titles", "sequences", "model_type_to_use", "ex", "fs", "source",
   "f", "DB_ROOT_PATH", "MSA_DATABASES", "TOTAL_JACKHMMER_CHUNKS",
   "features_for_chain", "raw_msa_results_for_sequence", "sequence_index",
   "sequence", "fasta_path", "raw_msa_results", "single_chain_msas",
   "uniprot_msa", "db_name", "db_results", "merged_msa", "msa_size",
   "feature_dict", "valid_feats", "all_seq_features", "np_example",
   "all_chain_features", "chain_id", "chain_features", "model_names",
   "abs_out_path", "plddts", "ranking_confidences", "pae_outputs",
   "unrelaxed_proteins", "pbar", "model_name", "cfg", "params",
   "model_runner", "processed_feature_dict", "prediction", "mean_plddt",
   "final_atom_mask", "b_factors", "unrelaxed_protein", "best_model_name",
   "amber_relaxer", "relaxed_pdb", "pred_output_path", "pae_output_path"]

/-- The save block of `alphafold` (lines 803-815): with no output
directory nothing is written; otherwise the structure file is written,
and then, exactly when `pae_outputs` is nonempty, the
`predicted_aligned_error.json` write is attempted — its payload
construction at line 813 reads the local names `pae` and `max_pae`, and
referencing a name that has not been assigned raises a Python
`NameError`. Returns the files written so far and the error, if any, that
aborted the block. -/
def saveBlock (out : Option String) (paeOutputsNonempty : Bool) (env : List String) :
    List String × Option PyErr :=
  match out with
  | none => ([], none)
  | some _ =>
      if paeOutputsNonempty then
        if "pae" ∈ env ∧ "max_pae" ∈ env then
          (["selected_prediction.pdb", "predicted_aligned_error.json"], none)
        else
          (["selected_prediction.pdb"], some PyErr.nameError)
      else
        (["selected_prediction.pdb"], none)

/-- Names bound at module level of `gget_alphafold.py` (the imports at
lines 1-37 and the module constants and functions): `glob` is not among
them — the module never imports it. -/
def alphafoldModuleEnv : List String :=
  ["date", "tqdm", "os", "sys", "subprocess", "platform", "collections",
   "copy", "futures", "random", "request", "plt", "np", "display",
   "GridspecLayout", "Output", "logging", "TQDM_BAR_FORMAT", "PACKAGE_PATH",
   "ALPHAFOLD_GIT_REPO", "PDBFIXER_GIT_REPO", "PARAMS_URL", "PARAMS_DIR",
   "PARAMS_PATH", "STEREO_CHEM_DIR", "JACKHMMER_BINARY_PATH", "TMP_DISK",
   "test_url_pattern", "MIN_SINGLE_SEQUENCE_LENGTH",
   "MAX_SINGLE_SEQUENCE_LENGTH", "MAX_MULTIMER_LENGTH", "MAX_HITS",
   "PLDDT_BANDS", "plot_plddt_legend", "install_packages", "fetch",
   "get_msa", "clean_up", "alphafold"]

/-- The `clean_up` function (lines 325-335): it first evaluates
`glob.glob("target_*.fasta")` — referencing `glob` raises a `NameError`
when that name is not bound in the enclosing scopes — and then removes
each listed file inside a `try/except` that swallows every deletion
failure (`removeOk f = false` models `os.remove(f)` raising). Returns the
successfully removed files. -/
def cleanUp (env : List String) (removeOk : String → Bool) (files : List String) :
    Except PyErr (List String) :=
  if "glob" ∈ env then Except.ok (files.filter removeOk)
  else Except.error PyErr.nameError

/-- Prediction environment used to exercise the inference-driver theorem
on a concrete input: `model_2_ptm` exposes a pairwise error matrix and the
highest confidence, `model_2` has the best recorded ranking confidence. -/
def predSample : String → Prediction := fun n =>
  if n = "model_2_ptm" then ⟨true, 95⟩
  else if n = "model_2" then ⟨false, 90⟩
  else ⟨false, 80⟩

/-! Theorems. -/

/-- Helper: the banding loop returns the first index whose band matches the
score, with the source's inclusive comparisons on both ends. -/
theorem band_first_match (p : ℚ) (i : Nat) :
    bandIndex p = some i ↔ (inBand i p ∧ ∀ j, j < i → ¬ inBand j p) := by
  have e0 : inBand 0 p ↔ ((0:ℚ) ≤ p ∧ p ≤ 50) := by simp [inBand, PLDDT_BANDS]
  have e1 : inBand 1 p ↔ ((50:ℚ) ≤ p ∧ p ≤ 70) := by simp [inBand, PLDDT_BANDS]
  have e2 : inBand 2 p ↔ ((70:ℚ) ≤ p ∧ p ≤ 90) := by simp [inBand, PLDDT_BANDS]
  have e3 : inBand 3 p ↔ ((90:ℚ) ≤ p ∧ p ≤ 100) := by simp [inBand, PLDDT_BANDS]
  have e4 : ∀ j, 4 ≤ j → ¬ inBand j p := by
    intro j hj hc
    obtain ⟨b, hb, -⟩ := hc
    rw [List.get?_eq_none.mpr (by simp [PLDDT_BANDS]; omega)] at hb
    exact (Option.not_mem_none b) hb
  simp only [bandIndex, bandIndexAux, PLDDT_BANDS]
  split_ifs with h1 h2 h3 h4
  · constructor
    · rintro ⟨rfl⟩
      exact ⟨e0.mpr h1, by omega⟩
    · rintro ⟨hb, hmin⟩
      rcases i with _ | i
      · rfl
      · exact absurd (e0.mpr h1) (hmin 0 (by omega))
  · constructor
    · rintro ⟨rfl⟩
      refine ⟨e1.mpr h2, ?_⟩
      intro j hj
      have : j = 0 := by omega
      subst this
      rw [e0]; exact fun hc => h1 hc
    · rintro ⟨hb, hmin⟩
      rcases i with _ | (_ | i)
      · exact absurd (e0.mp hb) h1
      · rfl
      · exact absurd (e1.mpr h2) (hmin 1 (by omega))
  · constructor
    · rintro ⟨rfl⟩
      refine ⟨e2.mpr h3, ?_⟩
      intro j hj
      interval_cases j
      · rw [e0]; exact fun hc => h1 hc
      · rw [e1]; exact fun hc => h2 hc
    · rintro ⟨hb, hmin⟩
      rcases i with _ | (_ | (_ | i))
      · exact absurd (e0.mp hb) h1
      · exact absurd (e1.mp hb) h2
      · rfl
      · exact absurd (e2.mpr h3) (hmin 2 (by omega))
  · constructor
    · rintro ⟨rfl⟩
      refine ⟨e3.mpr h4, ?_⟩
      intro j hj
      interval_cases j
      · rw [e0]; exact fun hc => h1 hc
      · rw [e1]; exact fun hc => h2 hc
      · rw [e2]; exact fun hc => h3 hc
    · rintro ⟨hb, hmin⟩
      rcases i with _ | (_ | (_ | (_ | i)))
      · exact absurd (e0.mp hb) h1
      · exact absurd (e1.mp hb) h2
      · exact absurd (e2.mp hb) h3
      · rfl
      · exact absurd (e3.mpr h4) (hmin 3 (by omega))
  · constructor
    · rintro ⟨⟩
    · rintro ⟨hb, hmin⟩
      rcases i with _ | (_ | (_ | (_ | i)))
      · exact absurd (e0.mp hb) h1
      · exact absurd (e1.mp hb) h2
      · exact absurd (e2.mp hb) h3
      · exact absurd (e3.mp hb) h4
      · exact e4 _ (by omega) hb

/-- C3 counterexample: the claim places a score of exactly 50 in band
index 1, but the banding loop of `alphafold` places 50 in band index 0,
because the source compares with `plddt >= min_val and plddt <= max_val`
(inclusive on both ends) and the first band `(0, 50)` already matches. -/
theorem plddt_band_50_counterexample :
    bandIndex 50 = some 0 ∧ bandIndex 50 ≠ some 1 := by
  constructor
  · decide
  · decide

/-- C3 amended: the banding maps each score to the first band in order
`[(0,50), (50,70), (70,90), (90,100)]` whose inclusive-on-both-ends range
contains it; consequently a score of exactly 50 lands in band index 0
(not 1), 70 in band index 1, and 90 in band index 2. -/
theorem plddt_band_first_match_inclusive :
    (∀ (p : ℚ) (i : Nat), bandIndex p = some i ↔ (inBand i p ∧ ∀ j, j < i → ¬ inBand j p)) ∧
    bandIndex 50 = some 0 ∧ bandIndex 70 = some 1 ∧ bandIndex 90 = some 2 :=
  ⟨band_first_match, by decide, by decide, by decide⟩

/-- Witness for the amended C3 theorem at score 70 and band index 1. -/
theorem plddt_band_first_match_inclusive_witness : bandIndex 70 = some 1 := by
  apply (plddt_band_first_match_inclusive.1 70 1).mpr
  constructor
  · exact ⟨(50, 70, "#FFDB13"), rfl, by norm_num, by norm_num⟩
  · intro j hj
    have hj0 : j = 0 := by omega
    subst hj0
    rintro ⟨b, hb, -, h2⟩
    simp [PLDDT_BANDS] at hb
    rw [← hb] at h2
    norm_num at h2

/-- Helper: full characterization of the strict-FASTA branch from any
starting index and accumulators: it succeeds exactly when no line violates
the alternation, and on the first violating index it raises the matching
`ValueError` message. -/
theorem parseFastaStrict_spec (lines : List String) :
    ∀ (i0 : Nat) (titles seqs : List String),
    ((∃ r, parseFastaStrict lines i0 titles seqs = Except.ok r) ↔
      ∀ k, k < lines.length → ¬ lineViol (lines.getD k "") (i0 + k)) ∧
    (∀ k, k < lines.length → lineViol (lines.getD k "") (i0 + k) →
      (∀ m, m < k → ¬ lineViol (lines.getD m "") (i0 + m)) →
      parseFastaStrict lines i0 titles seqs = Except.error (fastaErrorMsg (i0 + k))) := by
  induction lines with
  | nil =>
      intro i0 titles seqs
      constructor
      · simp [parseFastaStrict]
      · intro k hk
        simp at hk
  | cons line rest ih =>
      intro i0 titles seqs
      by_cases hpar : i0 % 2 = 0
      · by_cases hgt : line.take 1 = ">"
        · have hstep : parseFastaStrict (line :: rest) i0 titles seqs =
              parseFastaStrict rest (i0 + 1) (titles ++ [line.trim]) seqs := by
            simp [parseFastaStrict, hpar, hgt]
          have hv0 : ¬ lineViol line i0 := by
            simp [lineViol, hpar, hgt]
          obtain ⟨ihok, iherr⟩ := ih (i0 + 1) (titles ++ [line.trim]) seqs
          constructor
          · rw [hstep, ihok]
            constructor
            · intro h k hk
              rcases k with _ | k
              · simpa using hv0
              · have hk2 : k < rest.length := by simp at hk; omega
                have e : i0 + (k + 1) = i0 + 1 + k := by omega
                rw [List.getD_cons_succ, e]
                exact h k hk2
            · intro h k hk
              have hk2 : k + 1 < (line :: rest).length := by simp; omega
              have e : i0 + 1 + k = i0 + (k + 1) := by omega
              have h2 := h (k + 1) hk2
              rw [List.getD_cons_succ] at h2
              rw [e]
              exact h2
          · intro k hk hviol hmin
            rcases k with _ | k
            · exact absurd (by simpa using hviol) hv0
            · rw [hstep]
              have hk2 : k < rest.length := by simp at hk; omega
              have e : i0 + (k + 1) = i0 + 1 + k := by omega
              rw [e]
              apply iherr k hk2
              · rw [List.getD_cons_succ, e] at hviol
                exact hviol
              · intro m hm
                have hm2 := hmin (m + 1) (by omega)
                have e2 : i0 + (m + 1) = i0 + 1 + m := by omega
                rw [List.getD_cons_succ, e2] at hm2
                exact hm2
        · have hstep : parseFastaStrict (line :: rest) i0 titles seqs =
              Except.error "Expected FASTA to start with a \x27>\x27 character. " := by
            simp [parseFastaStrict, hpar, hgt]
          have hv0 : lineViol line i0 := by
            simp [lineViol, hpar, hgt]
          constructor
          · rw [hstep]
            constructor
            · rintro ⟨r, hr⟩
              cases hr
            · intro h
              exact absurd (by simpa using hv0) (h 0 (by simp))
          · intro k hk hviol hmin
            rcases k with _ | k
            · rw [hstep]
              simp [fastaErrorMsg, hpar]
            · exact absurd (by simpa using hv0) (hmin 0 (by omega))
      · by_cases hgt : line.take 1 = ">"
        · have hstep : parseFastaStrict (line :: rest) i0 titles seqs =
              Except.error "FASTA contains two lines starting with \x27>\x27 in a row -> missing sequence line. " := by
            simp [parseFastaStrict, hpar, hgt]
          have hv0 : lineViol line i0 := by
            simp [lineViol, hpar, hgt]
          constructor
          · rw [hstep]
            constructor
            · rintro ⟨r, hr⟩
              cases hr
            · intro h
              exact absurd (by simpa using hv0) (h 0 (by simp))
          · intro k hk hviol hmin
            rcases k with _ | k
            · rw [hstep]
              simp [fastaErrorMsg, hpar]
            · exact absurd (by simpa using hv0) (hmin 0 (by omega))
        · have hstep : parseFastaStrict (line :: rest) i0 titles seqs =
              parseFastaStrict rest (i0 + 1) titles (seqs ++ [line.trim]) := by
            simp [parseFastaStrict, hpar, hgt]
          have hv0 : ¬ lineViol line i0 := by
            simp [lineViol, hpar, hgt]
          obtain ⟨ihok, iherr⟩ := ih (i0 + 1) titles (seqs ++ [line.trim])
          constructor
          · rw [hstep, ihok]
            constructor
            · intro h k hk
              rcases k with _ | k
              · simpa using hv0
              · have hk2 : k < rest.length := by simp at hk; omega
                have e : i0 + (k + 1) = i0 + 1 + k := by omega
                rw [List.getD_cons_succ, e]
                exact h k hk2
            · intro h k hk
              have hk2 : k + 1 < (line :: rest).length := by simp; omega
              have e : i0 + 1 + k = i0 + (k + 1) := by omega
              have h2 := h (k + 1) hk2
              rw [List.getD_cons_succ] at h2
              rw [e]
              exact h2
          · intro k hk hviol hmin
            rcases k with _ | k
            · exact absurd (by simpa using hviol) hv0
            · rw [hstep]
              have hk2 : k < rest.length := by simp at hk; omega
              have e : i0 + (k + 1) = i0 + 1 + k := by omega
              rw [e]
              apply iherr k hk2
              · rw [List.getD_cons_succ, e] at hviol
                exact hviol
              · intro m hm
                have hm2 := hmin (m + 1) (by omega)
                have e2 : i0 + (m + 1) = i0 + 1 + m := by omega
                rw [List.getD_cons_succ, e2] at hm2
                exact hm2

/-- C5: on the strict-FASTA branch (with nonempty lines, as produced by
file iteration), parsing succeeds exactly when the lines strictly
alternate title/sequence; on the first violating index the raised
`ValueError` carries the start-marker message for an even index and the
missing-sequence-line message for an odd index. -/
theorem fasta_strict_alternation (lines : List String) (_hne : "" ∉ lines) :
    ((∃ r, parseFasta lines = Except.ok r) ↔
      ∀ i, i < lines.length → ¬ fastaViolation lines i) ∧
    (∀ i, i < lines.length → fastaViolation lines i →
      (∀ j, j < i → ¬ fastaViolation lines j) →
      parseFasta lines = Except.error (fastaErrorMsg i)) := by
  obtain ⟨hok, herr⟩ := parseFastaStrict_spec lines 0 [] []
  simp only [Nat.zero_add] at hok herr
  exact ⟨hok, herr⟩

/-- Witness for C5: a file of two consecutive title lines fails with the
missing-sequence-line error. -/
theorem fasta_strict_alternation_witness :
    parseFasta [">title1", ">title2"] =
      Except.error "FASTA contains two lines starting with \x27>\x27 in a row -> missing sequence line. " := by
  have h := (fasta_strict_alternation [">title1", ">title2"] (by decide)).2 1 (by decide)
    (by decide)
    (by
      intro j hj
      have hj0 : j = 0 := by omega
      subst hj0
      decide)
  exact h

/-- C10: `setup` raises the unsupported-module `ValueError`, naming the
given module and listing the supported ones, exactly when the module is
not one of "alphafold", "cellxgene", "gpt"; for a supported module no such
error is raised. -/
theorem setup_unsupported_module_error (module : String) :
    ((setupModuleError module).isSome ↔ module ∉ supported_modules) ∧
    (module ∉ supported_modules →
      setupModuleError module =
        some ("\x27module\x27 argument specified as " ++ module
          ++ ". Expected one of: " ++ "alphafold, cellxgene, gpt")) ∧
    (module ∈ supported_modules → setupModuleError module = none) := by
  refine ⟨⟨?_, ?_⟩, ?_, ?_⟩
  · intro hs hmem
    rw [setupModuleError, if_neg (by simpa using hmem)] at hs
    simp at hs
  · intro hnm
    rw [setupModuleError, if_pos hnm]
    simp
  · intro hnm
    rw [setupModuleError, if_pos hnm]
    rfl

  · intro hmem
    rw [setupModuleError, if_neg (by simpa using hmem)]

/-- Witness for C10: an unsupported module raises with the formatted
message; a supported one does not. -/
theorem setup_unsupported_module_error_witness :
    setupModuleError "archs4" =
      some "\x27module\x27 argument specified as archs4. Expected one of: alphafold, cellxgene, gpt"
    ∧ setupModuleError "gpt" = none := by
  constructor
  · have h := (setup_unsupported_module_error "archs4").2.1 (by decide)
    exact h
  · exact (setup_unsupported_module_error "gpt").2.2 (by decide)

/-- Helper: reading an index inside the left part of an appended list. -/
theorem getD_append_left {α : Type} (l l' : List α) (n : Nat) (d : α) (h : n < l.length) :
    (l ++ l').getD n d = l.getD n d := by
  induction l generalizing n with
  | nil => simp at h
  | cons x xs ih =>
      rcases n with _ | n
      · rfl
      · exact ih n (by simpa using h)

/-- Helper: reading the freshly appended cell. -/
theorem getD_append_len {α : Type} (l : List α) (x : α) (d : α) :
    (l ++ [x]).getD l.length d = x := by
  induction l with
  | nil => rfl
  | cons y ys ih => simp [ih]

/-- Helper: cache lookup distributes over append. -/
theorem findCache_append (c1 c2 : List (String × Nat)) (s : String) :
    findCache (c1 ++ c2) s =
      match findCache c1 s with
      | some v => some v
      | none => findCache c2 s := by
  induction c1 with
  | nil => rfl
  | cons p rest ih =>
      obtain ⟨k, v⟩ := p
      by_cases hk : k = s
      · simp [findCache, hk]
      · simp [findCache, hk, ih]

/-- Helper: a successful cache lookup comes from an entry of the cache. -/
theorem findCache_mem (c : List (String × Nat)) (s : String) (v : Nat)
    (h : findCache c s = some v) : (s, v) ∈ c := by
  induction c with
  | nil => cases h
  | cons p rest ih =>
      obtain ⟨k, w⟩ := p
      by_cases hk : k = s
      · rw [findCache, if_pos hk] at h
        cases h
        subst hk
        exact List.mem_cons_self _ _
      · rw [findCache, if_neg hk] at h
        exact List.mem_cons_of_mem _ (ih h)

/-- Helper: one retrieval step preserves the loop invariant. -/
theorem retrieveStep_inv {α : Type} [Inhabited α] (search : String → α)
    (st : RetrState α) (processed : List String) (seq : String)
    (hinv : RetrInv search st processed) :
    RetrInv search (retrieveStep search st seq) (processed ++ [seq]) := by
  obtain ⟨hlen, haddr, hcount, hcache, hfind, hcontent⟩ := hinv
  rcases hfc : findCache st.cache seq with _ | a
  · have hnp : seq ∉ processed := by
      rw [← hfind seq, hfc]
      simp
    refine ⟨?_, ?_, ?_, ?_, ?_, ?_⟩
    · simp [retrieveStep, hfc, hlen]
    · simp only [retrieveStep, hfc]
      rw [haddr, hlen]
      simp [List.range_succ]
    · intro s
      simp only [retrieveStep, hfc]
      rw [List.count_append]
      by_cases hs : s = seq
      · subst hs
        rw [hcount s, if_neg hnp]
        simp
      · rw [hcount s]
        have hmem : s ∈ processed ++ [seq] ↔ s ∈ processed := by
          simp [hs]
        rw [if_congr hmem rfl rfl]
        simp [Ne.symm hs, List.count_singleton]
    · intro p hp
      simp only [retrieveStep, hfc] at hp ⊢
      rw [List.mem_append] at hp
      rcases hp with hp | hp
      · obtain ⟨hlt, hval⟩ := hcache p hp
        refine ⟨by simp; omega, ?_⟩
        rw [getD_append_left _ _ _ _ hlt]
        exact hval
      · simp at hp
        subst hp
        refine ⟨by simp, ?_⟩
        exact getD_append_len _ _ _
    · intro s
      simp only [retrieveStep, hfc]
      rw [findCache_append]
      rcases hf2 : findCache st.cache s with _ | v
      · have hsp : s ∉ processed := by
          rw [← hfind s, hf2]
          simp
        by_cases hs : seq = s
        · subst hs
          simp [findCache, hsp]
        · simp [findCache, hs, hsp, Ne.symm hs]
      · have hsp : s ∈ processed := by
          rw [← hfind s, hf2]
          simp
        simp [hsp]
    · intro i hi
      simp only [retrieveStep, hfc]
      rw [List.length_append] at hi
      simp at hi
      rcases Nat.lt_or_ge i processed.length with hilt | hige
      · rw [getD_append_left _ _ _ _ (by omega), getD_append_left _ _ _ _ hilt]
        exact hcontent i hilt
      · have hieq : i = processed.length := by omega
        subst hieq
        rw [← hlen, getD_append_len]
        rw [hlen, getD_append_len]
  · have hsp : seq ∈ processed := by
      rw [← hfind seq, hfc]
      simp
    obtain ⟨ha_lt, ha_val⟩ := hcache (seq, a) (findCache_mem _ _ _ hfc)
    refine ⟨?_, ?_, ?_, ?_, ?_, ?_⟩
    · simp [retrieveStep, hfc, hlen]
    · simp only [retrieveStep, hfc]
      rw [haddr, hlen]
      simp [List.range_succ]
    · intro s
      simp only [retrieveStep, hfc]
      rw [hcount s]
      have hmem : s ∈ processed ++ [seq] ↔ s ∈ processed := by
        constructor
        · intro h
          rcases List.mem_append.mp h with h | h
          · exact h
          · simp at h
            subst h
            exact hsp
        · intro h
          exact List.mem_append.mpr (Or.inl h)
      rw [if_congr hmem rfl rfl]
    · intro p hp
      simp only [retrieveStep, hfc] at hp ⊢
      obtain ⟨hlt, hval⟩ := hcache p hp
      refine ⟨by simp; omega, ?_⟩
      rw [getD_append_left _ _ _ _ hlt]
      exact hval
    · intro s
      simp only [retrieveStep, hfc]
      rw [hfind s]
      constructor
      · intro h
        exact List.mem_append.mpr (Or.inl h)
      · intro h
        rcases List.mem_append.mp h with h | h
        · exact h
        · simp at h
          subst h
          exact hsp
    · intro i hi
      simp only [retrieveStep, hfc]
      rw [List.length_append] at hi
      simp at hi
      rcases Nat.lt_or_ge i processed.length with hilt | hige
      · rw [getD_append_left _ _ _ _ (by omega), getD_append_left _ _ _ _ hilt]
        exact hcontent i hilt
      · have hieq : i = processed.length := by omega
        subst hieq
        rw [← hlen, getD_append_len]
        rw [hlen, getD_append_len, ha_val]

/-- Helper: the invariant is preserved along the whole fold. -/
theorem foldl_retrieve_inv {α : Type} [Inhabited α] (search : String → α) :
    ∀ (seqs : List String) (st : RetrState α) (processed : List String),
    RetrInv search st processed →
    RetrInv search (seqs.foldl (retrieveStep search) st) (processed ++ seqs) := by
  intro seqs
  induction seqs with
  | nil =>
      intro st processed h
      simpa using h
  | cons x xs ih =>
      intro st processed h
      have h2 := retrieveStep_inv search st processed x h
      have h3 := ih (retrieveStep search st x) (processed ++ [x]) h2
      simpa using h3

/-- Helper: the invariant holds of the final retrieval state. -/
theorem runRetriever_inv {α : Type} [Inhabited α] (search : String → α) (seqs : List String) :
    RetrInv search (runRetriever search seqs) seqs := by
  have h0 : RetrInv search (⟨[], [], [], []⟩ : RetrState α) [] := by
    refine ⟨rfl, rfl, ?_, ?_, ?_, ?_⟩
    · intro s
      simp [findCache]
    · intro p hp
      cases hp
    · intro s
      simp [findCache]
    · intro i hi
      simp at hi
  simpa using foldl_retrieve_inv search seqs ⟨[], [], [], []⟩ [] h0

/-- Helper: reading inside `List.range`. -/
theorem getD_range (n i : Nat) (h : i < n) : (List.range n).getD i 0 = i := by
  rw [List.getD_eq_getElem _ _ (by simpa using h)]
  simp

/-- Helper: writing one heap cell leaves every other cell unchanged. -/
theorem getD_set_ne {α : Type} (l : List α) (i j : Nat) (h : i ≠ j) (v d : α) :
    (l.set i v).getD j d = l.getD j d := by
  unfold List.getD
  rw [List.get?_set_ne _ _ h]

/-- C1: for a job whose sequence list repeats a literal sequence, the
retrieval loop invokes `get_msa` exactly once for that sequence; every
chain's collection holds the search result for its sequence (subsequent
occurrences receive a deep copy of the cached collection), and the
collections of any two distinct chains live at distinct heap addresses,
so mutating one chain's collection leaves every other chain's collection
unchanged. -/
theorem msa_retriever_dedup_deepcopy (α : Type) [Inhabited α] (search : String → α)
    (seqs : List String) (s : String) (hs : 2 ≤ seqs.count s) :
    (runRetriever search seqs).searchLog.count s = 1 ∧
    (∀ i, i < seqs.length →
      (runRetriever search seqs).heap.getD
          ((runRetriever search seqs).chainAddrs.getD i 0) default
        = search (seqs.getD i "")) ∧
    (∀ i j, i < seqs.length → j < seqs.length → i ≠ j → ∀ v : α,
      (((runRetriever search seqs).heap.set
            ((runRetriever search seqs).chainAddrs.getD i 0) v).getD
          ((runRetriever search seqs).chainAddrs.getD j 0) default)
        = (runRetriever search seqs).heap.getD
            ((runRetriever search seqs).chainAddrs.getD j 0) default) := by
  obtain ⟨hlen, haddr, hcount, hcache, hfind, hcontent⟩ := runRetriever_inv search seqs
  have hmem : s ∈ seqs := by
    have hpos : 0 < seqs.count s := by omega
    exact List.count_pos_iff_mem.mp hpos
  refine ⟨?_, ?_, ?_⟩
  · rw [hcount s, if_pos hmem]
  · intro i hi
    rw [haddr, getD_range _ _ hi]
    exact hcontent i hi
  · intro i j hi hj hij v
    rw [haddr, getD_range _ _ hi, getD_range _ _ hj]
    exact getD_set_ne _ _ _ hij _ _

/-- Witness for C1 on a homomer of two identical chains: one search only,
both chains hold the search result, and mutating chain 0's collection
leaves chain 1's unchanged. -/
theorem msa_retriever_dedup_deepcopy_witness :
    (runRetriever (fun _ => 7) ["AAAA", "AAAA"] : RetrState Nat).searchLog.count "AAAA" = 1 ∧
    (((runRetriever (fun _ => 7) ["AAAA", "AAAA"] : RetrState Nat).heap.set
          ((runRetriever (fun _ => 7) ["AAAA", "AAAA"] : RetrState Nat).chainAddrs.getD 0 0) 99).getD
        ((runRetriever (fun _ => 7) ["AAAA", "AAAA"] : RetrState Nat).chainAddrs.getD 1 0) default)
      = (runRetriever (fun _ => 7) ["AAAA", "AAAA"] : RetrState Nat).heap.getD
          ((runRetriever (fun _ => 7) ["AAAA", "AAAA"] : RetrState Nat).chainAddrs.getD 1 0) default := by
  have h := msa_retriever_dedup_deepcopy Nat (fun _ => 7) ["AAAA", "AAAA"] "AAAA" (by decide)
  exact ⟨h.1, h.2.2 0 1 (by decide) (by decide) (by decide) 99⟩

/-- Helper: the heteromer guard of the source is exactly the heteromer
classification of the specification. -/
theorem heteroCondition_iff (seqs : List String) :
    heteroCondition seqs ↔ isHeteromer seqs := by
  unfold heteroCondition isHeteromer modelTypeToUse
  by_cases hl : 1 < seqs.length
  · simp [hl]
  · simp [hl]

/-- C2: the uniprot database is searched, and `_all_seq`-suffixed keys
appear in a chain's feature bundle, exactly when the job is a heteromer
(a multimer with at least two distinct sequences); the hypotheses say
that no base feature key carries the `_all_seq` suffix and that the
whitelist retains at least one uniprot feature key. -/
theorem uniprot_and_all_seq_iff_heteromer (root : String)
    (seqs baseKeys validFeats msaFeatureKeys : List String)
    (hbase : ∀ k ∈ baseKeys, ¬ isAllSeqKey k)
    (hfeat : ∃ k ∈ msaFeatureKeys, k ∈ validFeats) :
    ((∃ db ∈ msaDatabases root seqs, db.db_name = "uniprot") ↔ isHeteromer seqs) ∧
    ((∃ k ∈ chainFeatureKeys baseKeys validFeats msaFeatureKeys seqs, isAllSeqKey k)
      ↔ isHeteromer seqs) := by
  constructor
  · constructor
    · rintro ⟨db, hdb, hname⟩
      by_cases hc : heteroCondition seqs
      · exact (heteroCondition_iff seqs).mp hc
      · exfalso
        simp [msaDatabases, baseMsaDatabases, hc] at hdb
        rcases hdb with h | h | h <;> rw [h] at hname <;> simp at hname
    · intro hh
      have hc := (heteroCondition_iff seqs).mpr hh
      refine ⟨⟨"uniprot", root ++ "uniprot_2021_03.fasta", 98, 219174961 + 565254⟩, ?_, rfl⟩
      rw [msaDatabases, if_pos hc]
      simp
  · constructor
    · rintro ⟨k, hk, hks⟩
      by_cases hc : heteroCondition seqs
      · exact (heteroCondition_iff seqs).mp hc
      · exfalso
        rw [chainFeatureKeys, if_neg hc] at hk
        simp at hk
        exact hbase k hk hks
    · intro hh
      have hc := (heteroCondition_iff seqs).mpr hh
      obtain ⟨k, hk, hkv⟩ := hfeat
      refine ⟨k ++ "_all_seq", ?_, ⟨k, rfl⟩⟩
      rw [chainFeatureKeys, if_pos hc]
      apply List.mem_append.mpr
      right
      apply List.mem_map_of_mem
      exact List.mem_filter.mpr ⟨hk, by simpa⟩

/-- Witness for C2: a heteromer of two distinct sequences gets the
uniprot search and an `_all_seq` key. -/
theorem uniprot_and_all_seq_iff_heteromer_witness :
    (∃ db ∈ msaDatabases "R" ["AAAAAAAAAAAAAAAA", "CCCCCCCCCCCCCCCC"],
      db.db_name = "uniprot") ∧
    (∃ k ∈ chainFeatureKeys ["aatype"] ["msa"] ["msa", "deletion_matrix_int"]
        ["AAAAAAAAAAAAAAAA", "CCCCCCCCCCCCCCCC"], isAllSeqKey k) := by
  have hbase : ∀ k ∈ ["aatype"], ¬ isAllSeqKey k := by
    intro k hk
    simp at hk
    subst hk
    rintro ⟨p, hp⟩
    have hlen := congrArg String.length hp
    rw [String.length_append] at hlen
    have h1 : String.length "aatype" = 6 := rfl
    have h2 : String.length "_all_seq" = 8 := rfl
    omega
  have h := uniprot_and_all_seq_iff_heteromer "R"
    ["AAAAAAAAAAAAAAAA", "CCCCCCCCCCCCCCCC"] ["aatype"] ["msa"]
    ["msa", "deletion_matrix_int"] hbase (by decide)
  exact ⟨h.1.mpr (by constructor <;> decide), h.2.mpr (by constructor <;> decide)⟩

/-- Helper: Python's `max(..., key=...)` scan lands on the first element
attaining the maximum: the scanned list decomposes as a strictly smaller
prefix, the result, and a not-larger suffix. -/
theorem pyMaxGo_firstMax :
    ∀ (l : List (String × ℚ)) (best : String × ℚ),
    ∃ l₁ l₂, best :: l = l₁ ++ (pyMaxGo best l) :: l₂ ∧
      (∀ x ∈ best :: l, x.2 ≤ (pyMaxGo best l).2) ∧
      (∀ x ∈ l₁, x.2 < (pyMaxGo best l).2) := by
  intro l
  induction l with
  | nil =>
      intro best
      exact ⟨[], [], rfl, by simp [pyMaxGo], by simp⟩
  | cons x rest ih =>
      intro best
      by_cases hlt : best.2 < x.2
      · have hstep : pyMaxGo best (x :: rest) = pyMaxGo x rest := by
          simp [pyMaxGo, hlt]
        obtain ⟨l₁, l₂, hdec, hmax, hstrict⟩ := ih x
        refine ⟨best :: l₁, l₂, ?_, ?_, ?_⟩
        · rw [hstep, List.cons_append, ← hdec]
        · intro y hy
          rw [hstep]
          rcases List.mem_cons.mp hy with hy | hy
          · subst hy
            have hx : x.2 ≤ (pyMaxGo x rest).2 := hmax x (List.mem_cons_self _ _)
            linarith
          · exact hmax y hy
        · intro y hy
          rw [hstep]
          rcases List.mem_cons.mp hy with hy | hy
          · subst hy
            have hx : x.2 ≤ (pyMaxGo x rest).2 := hmax x (List.mem_cons_self _ _)
            linarith
          · exact hstrict y hy
      · have hstep : pyMaxGo best (x :: rest) = pyMaxGo best rest := by
          simp [pyMaxGo, hlt]
        obtain ⟨l₁, l₂, hdec, hmax, hstrict⟩ := ih best
        rcases l₁ with _ | ⟨z, l₁t⟩
        · simp only [List.nil_append] at hdec
          injection hdec with hh ht
          refine ⟨[], x :: rest, ?_, ?_, ?_⟩
          · rw [hstep, ← hh]
            rfl
          · intro y hy
            rw [hstep, ← hh]
            rcases List.mem_cons.mp hy with hy | hy
            · subst hy
              exact le_refl _
            · rcases List.mem_cons.mp hy with hy | hy
              · subst hy
                exact le_of_not_lt hlt
              · have hle := hmax y (List.mem_cons_of_mem _ hy)
                rw [← hh] at hle
                exact hle
          · intro y hy
            cases hy
        · injection hdec with hh ht
          subst hh
          have hzstrict : best.2 < (pyMaxGo best rest).2 :=
            hstrict best (List.mem_cons_self _ _)
          refine ⟨best :: x :: l₁t, l₂, ?_, ?_, ?_⟩
          · rw [hstep]
            conv_lhs => rw [ht]
            rfl
          · intro y hy
            rw [hstep]
            rcases List.mem_cons.mp hy with hy | hy
            · rw [hy]
              exact hmax best (List.mem_cons_self _ _)
            · rcases List.mem_cons.mp hy with hy | hy
              · rw [hy]
                exact le_trans (le_of_not_lt hlt) (hmax best (List.mem_cons_self _ _))
              · exact hmax y (List.mem_cons_of_mem _ hy)
          · intro y hy
            rw [hstep]
            rcases List.mem_cons.mp hy with hy | hy
            · rw [hy]
              exact hzstrict
            · rcases List.mem_cons.mp hy with hy | hy
              · rw [hy]
                exact lt_of_le_of_lt (le_of_not_lt hlt) hzstrict
              · exact hstrict y (List.mem_cons_of_mem _ hy)

/-- Helper: the recorded ranking confidences are, in insertion order,
exactly the configurations the driver keeps, paired with their
confidences. -/
theorem runInference_ranking (mt : ModelType) (pred : String → Prediction) :
    ∀ (names : List String) (st : InferState),
    (names.foldl (inferStep mt pred) st).rankingConfidences =
      st.rankingConfidences ++
        (names.filter (keepName mt pred)).map
          (fun n => (n, (pred n).rankingConfidence)) := by
  intro names
  induction names with
  | nil =>
      intro st
      simp
  | cons n rest ih =>
      intro st
      rw [List.foldl_cons, ih]
      cases mt with
      | MONOMER =>
          by_cases hp : (pred n).hasPae
          · simp [inferStep, hp, keepName, List.filter_cons]
          · simp [inferStep, hp, keepName, List.filter_cons]
      | MULTIMER =>
          simp [inferStep, keepName, List.filter_cons]

/-- C4: once every configuration has run, the selected best model is the
first-recorded configuration (insertion order) whose ranking confidence
attains the maximum; the recorded configurations are exactly the
configuration list filtered by the driver's keep rule, and for a monomer
job a configuration whose prediction exposes a pairwise error matrix is
never selected as best. -/
theorem best_model_selection (mt : ModelType) (pred : String → Prediction)
    (names : List String)
    (hne : (runInference mt pred names).rankingConfidences ≠ []) :
    (∃ e l₁ l₂,
      bestModelName (runInference mt pred names) = some e.1 ∧
      (runInference mt pred names).rankingConfidences = l₁ ++ e :: l₂ ∧
      (∀ x ∈ (runInference mt pred names).rankingConfidences, x.2 ≤ e.2) ∧
      (∀ x ∈ l₁, x.2 < e.2)) ∧
    ((runInference mt pred names).rankingConfidences.map Prod.fst =
      names.filter (keepName mt pred)) ∧
    (mt = ModelType.MONOMER → ∀ n, n ∈ names → (pred n).hasPae = true →
      bestModelName (runInference mt pred names) ≠ some n) := by
  have hrank := runInference_ranking mt pred names ⟨[], []⟩
  obtain ⟨x, rest, hx⟩ := List.exists_cons_of_ne_nil hne
  obtain ⟨l₁, l₂, hdec, hmax, hstrict⟩ := pyMaxGo_firstMax rest x
  have hbest : bestModelName (runInference mt pred names) = some (pyMaxGo x rest).1 := by
    simp [bestModelName, pyMaxKey, hx]
  have hmap : (runInference mt pred names).rankingConfidences.map Prod.fst =
      names.filter (keepName mt pred) := by
    show (List.foldl (inferStep mt pred) ⟨[], []⟩ names).rankingConfidences.map Prod.fst = _
    rw [hrank]
    rw [List.nil_append, List.map_map]
    have hcomp : (Prod.fst ∘ fun n => (n, (pred n).rankingConfidence)) = id := by
      funext n
      rfl
    rw [hcomp, List.map_id]
  refine ⟨⟨pyMaxGo x rest, l₁, l₂, hbest, ?_, ?_, hstrict⟩, hmap, ?_⟩
  · rw [hx]
    exact hdec
  · rw [hx]
    exact hmax
  · intro hmt n hn hp heq
    have hmem : pyMaxGo x rest ∈ (runInference mt pred names).rankingConfidences := by
      rw [hx, hdec]
      exact List.mem_append.mpr (Or.inr (List.mem_cons_self _ _))
    have hfst : (pyMaxGo x rest).1 ∈ names.filter (keepName mt pred) := by
      rw [← hmap]
      exact List.mem_map_of_mem Prod.fst hmem
    have hkeep := (List.mem_filter.mp hfst).2
    rw [hbest] at heq
    have hn2 : (pyMaxGo x rest).1 = n := by
      injection heq
    rw [hn2] at hkeep
    subst hmt
    simp [keepName, hp] at hkeep

/-- Witness for C4: in a monomer run where the pTM variant has the
highest raw confidence but exposes a pairwise error matrix, it is not
selected. -/
theorem best_model_selection_witness :
    bestModelName (runInference ModelType.MONOMER predSample
      ["model_1", "model_2", "model_2_ptm"]) ≠ some "model_2_ptm" := by
  exact (best_model_selection ModelType.MONOMER predSample
    ["model_1", "model_2", "model_2_ptm"] (by decide)).2.2 rfl "model_2_ptm"
    (by decide) (by decide)

/-- C6 counterexample: the claim promises the suffix of the first probe to
complete successfully regardless of when failing probes complete, but the
loop takes the first probe to complete at all and calls `f.result()` on
it: when the plain-mirror probe fails and completes first while the
"-europe" probe succeeds later, the exception propagates instead of
"-europe" being selected. -/
theorem source_selector_counterexample :
    selectSource [("", false), ("-europe", true), ("-asia", false)] = Except.error () ∧
    selectSource [("", false), ("-europe", true), ("-asia", false)] ≠ Except.ok "-europe" := by
  constructor
  · rfl
  · intro h
    cases h

/-- C6 amended: the Source Selector returns the suffix of the first probe
to complete, provided that probe succeeded (so "-europe" is used when the
"-europe" probe both succeeds and completes first), and when every probe
fails the first completion's exception propagates — there is no silent
fallback to a default mirror. -/
theorem source_selector_first_completed (completed : List (String × Bool)) :
    (∀ s rest, completed = (s, true) :: rest →
      selectSource completed = Except.ok s ∧
      dbRootPath s = "https://storage.googleapis.com/alphafold-colab" ++ s ++ "/latest/") ∧
    (completed ≠ [] → (∀ e ∈ completed, e.2 = false) →
      selectSource completed = Except.error ()) := by
  constructor
  · intro s rest h
    subst h
    exact ⟨rfl, rfl⟩
  · intro hne hall
    rcases completed with _ | ⟨⟨s, b⟩, rest⟩
    · exact absurd rfl hne
    · have hb : b = false := hall (s, b) (List.mem_cons_self _ _)
      subst hb
      rfl

/-- Witness for C6 amended: "-europe" succeeding and completing first is
selected; all probes failing propagates the error. -/
theorem source_selector_first_completed_witness :
    selectSource [("-europe", true), ("", false), ("-asia", false)] = Except.ok "-europe" ∧
    selectSource [("", false), ("-asia", false), ("-europe", false)] = Except.error () := by
  constructor
  · exact ((source_selector_first_completed
      [("-europe", true), ("", false), ("-asia", false)]).1 "-europe"
      [("", false), ("-asia", false)] rfl).1
  · exact (source_selector_first_completed
      [("", false), ("-asia", false), ("-europe", false)]).2 (by simp) (by decide)

/-- C7 counterexample: for a 4-residue input (below the minimum length of
16) with the parameter directory unpopulated, the body performs the
model-parameter download — a remote call — before input validation
rejects the sequence, contradicting the claim that no remote call is
issued before the length bounds are checked. -/
theorem params_download_before_validation_counterexample :
    ¬ validLengths ["MKVL"] ∧
    alphafoldTrace true ["MKVL"] =
      [PipelineStep.installPackages, PipelineStep.downloadParams,
       PipelineStep.copyStereoChem, PipelineStep.validateInput] ∧
    networkStep PipelineStep.downloadParams = true := by
  refine ⟨by decide, by decide, rfl⟩

/-- C7 amended: the mirror reachability probes, the database searches and
the model runs are issued only after length validation passes, so an
out-of-bounds input reaches none of them; the model-parameter download,
however, precedes validation and is performed (when the parameter
directory is unpopulated) even for inputs that validation then rejects. -/
theorem validation_before_probes (paramsMissing : Bool) (seqs : List String) :
    (¬ validLengths seqs →
      PipelineStep.findClosestSource ∉ alphafoldTrace paramsMissing seqs ∧
      PipelineStep.msaSearch ∉ alphafoldTrace paramsMissing seqs ∧
      PipelineStep.runModels ∉ alphafoldTrace paramsMissing seqs) ∧
    (validLengths seqs → PipelineStep.findClosestSource ∈ alphafoldTrace paramsMissing seqs) ∧
    (paramsMissing = true → PipelineStep.downloadParams ∈ alphafoldTrace paramsMissing seqs) := by
  refine ⟨?_, ?_, ?_⟩
  · intro h
    cases paramsMissing <;> simp [alphafoldTrace, h]
  · intro h
    cases paramsMissing <;> simp [alphafoldTrace, h]
  · intro h
    subst h
    simp [alphafoldTrace]

/-- Witness for C7 amended: the short sequence reaches no probe or search
while the parameter download still happens. -/
theorem validation_before_probes_witness :
    PipelineStep.findClosestSource ∉ alphafoldTrace true ["MKVL"] ∧
    PipelineStep.downloadParams ∈ alphafoldTrace true ["MKVL"] := by
  exact ⟨((validation_before_probes true ["MKVL"]).1 (by decide)).1,
    (validation_before_probes true ["MKVL"]).2.2 rfl⟩

/-- C8 (code bug): `pae` and `max_pae` are not assigned before the save
block, so whenever an output directory is given and some run produced a
pairwise error matrix, the `predicted_aligned_error.json` write raises a
`NameError` after the structure file is written — the JSON artifact is
not persisted, contrary to the claim; with no output directory nothing is
written, as claimed. -/
theorem save_block_name_error :
    "pae" ∉ assignedBeforeSave ∧
    (∀ dir, saveBlock (some dir) true assignedBeforeSave =
      (["selected_prediction.pdb"], some PyErr.nameError)) ∧
    (∀ dir, saveBlock (some dir) false assignedBeforeSave =
      (["selected_prediction.pdb"], none)) ∧
    (∀ paeNE, saveBlock none paeNE assignedBeforeSave = ([], none)) := by
    refine ⟨by decide, ?_, ?_, ?_⟩
    · intro dir
      rw [saveBlock]
      rw [if_pos rfl, if_neg (by decide)]
    · intro dir
      rfl
    · intro paeNE
      rfl

/-- C9 (code bug): `glob` is never imported in `gget_alphafold.py`, so
`clean_up` raises a `NameError` before any deletion is attempted — it
does raise out of the cleanup function, contrary to the claim; had `glob`
been bound, every deletion failure would indeed be silently swallowed by
the `try/except`. -/
theorem clean_up_name_error :
    "glob" ∉ alphafoldModuleEnv ∧
    (∀ (removeOk : String → Bool) (files : List String),
      cleanUp alphafoldModuleEnv removeOk files = Except.error PyErr.nameError) ∧
    cleanUp ("glob" :: alphafoldModuleEnv) (fun _ => false)
      ["target_1.fasta", "target_2.fasta"] = Except.ok [] := by
  refine ⟨by decide, ?_, by simp [cleanUp]⟩
  intro removeOk files
  rw [cleanUp, if_neg (by decide)]

end Gget
